import Mathlib

set_option maxHeartbeats 1000000
set_option maxRecDepth 8000

/-!
Shallow embedding of the in-memory tabular data engine of the CSV Book Data
Editor (source files `DataTable.tsx`, `CsvUpload.tsx`, the CSV manager
component and `types/csv`).

A CSV record (`CsvRecord = Record<string, string>`) is embedded as an
association list from column name to string value, together with a numeric
`id` that stands for JavaScript object identity: the source compares row
objects with `===` (`data.findIndex(d => d === ...)`), and in every reachable
state all row objects of the working table are pairwise distinct objects.
Identity is only ever consulted within a single table state, so an edit that
replaces a row object keeps its `id`, and a fresh deep copy renumbers ids
from 0.

JavaScript string and number builtins used by the source
(`toLowerCase`, `trim`, `includes`, `parseFloat`, numeric comparison of the
values returned by `parseFloat`) are modelled by structurally recursive,
kernel-computable functions on character lists.  Numbers produced by
`parseFloat` are modelled exactly, as `mantissa * 10 ^ exponent` with integer
mantissa and exponent (or as a signed infinity for an `Infinity` literal);
ordering of such numbers agrees with the ordering of the real numbers they
denote, which coincides with the IEEE-double comparison performed by the
source except on values that only differ beyond double precision.
-/

/-- One CSV record together with an identity tag modelling JavaScript object
identity. -/
structure CsvRow where
  id : Nat
  cells : List (String × String)
deriving DecidableEq, Repr

/-- A table is an ordered sequence of records. -/
abbrev Table := List CsvRow

/-- JavaScript property lookup `row[field]` on a record. -/
def getField (cells : List (String × String)) (f : String) : Option String :=
  (cells.find? (fun p => p.1 == f)).map (fun p => p.2)

/-- The stringified cell value `String(row[field] || '')`, with an absent
field coerced to the empty string (a present empty string is falsy in
JavaScript and is also coerced to `''`, which is the same string). -/
def cellStr (cells : List (String × String)) (f : String) : String :=
  (getField cells f).getD ""

/-- Object spread `{ ...row, [field]: value }`, replacing the value stored
under `field` (keeping the key in place) or appending the key if absent. -/
def setField (cells : List (String × String)) (f v : String) : List (String × String) :=
  if cells.any (fun p => p.1 == f) then
    cells.map (fun p => if p.1 == f then (p.1, v) else p)
  else
    cells ++ [(f, v)]

/-- Model of JavaScript `String.prototype.toLowerCase` (ASCII case folding,
which is all the engine's own string operations rely on). -/
def jsToLower (s : String) : String :=
  ⟨s.data.map Char.toLower⟩

/-- The `StrWhiteSpace` characters recognised by `parseFloat` and `trim`
(space, tab, line feed, carriage return, vertical tab, form feed,
no-break space). -/
def isStrWhiteSpace (c : Char) : Bool :=
  c = ' ' || c = '\t' || c = '\n' || c = '\r' || c.toNat = 11 || c.toNat = 12 || c.toNat = 160

/-- Model of JavaScript `String.prototype.trim` on character lists. -/
def trimChars (cs : List Char) : List Char :=
  ((cs.dropWhile isStrWhiteSpace).reverse.dropWhile isStrWhiteSpace).reverse

/-- Whether `needle` occurs contiguously inside the remaining character list. -/
def substrAux (needle : List Char) : List Char → Bool
  | [] => needle.isEmpty
  | c :: rest => needle.isPrefixOf (c :: rest) || substrAux needle rest

/-- Model of JavaScript `String.prototype.includes`. -/
def strIncludes (hay needle : String) : Bool :=
  substrAux needle.data hay.data

/-- A finite value returned by `parseFloat`, denoting `mant * 10 ^ exp`
(exact decimal arithmetic; see the header comment). -/
structure DecNum where
  mant : Int
  exp : Int
deriving DecidableEq, Repr

/-- The rational number a `DecNum` denotes. -/
def DecNum.toRat (d : DecNum) : ℚ :=
  (d.mant : ℚ) * (10 : ℚ) ^ d.exp

/-- Strict value comparison of two `DecNum`s by cross-multiplication. -/
def decLtB (a b : DecNum) : Bool :=
  let m := min a.exp b.exp
  a.mant * (10 : Int) ^ (a.exp - m).toNat < b.mant * (10 : Int) ^ (b.exp - m).toNat

/-- A non-`NaN` result of `parseFloat`: a finite decimal value or a signed
infinity (`parseFloat("Infinity")`). -/
inductive JsNum where
  | fin (d : DecNum)
  | inf (pos : Bool)
deriving DecidableEq, Repr

/-- Sign of the JavaScript subtraction `a - b` of two non-`NaN` numbers, as
consumed by `Array.prototype.sort` (which only inspects the sign of the
comparator result and treats a `NaN` result — here `∞ - ∞` — as `0`). -/
def numCmp : JsNum → JsNum → Int
  | .fin a, .fin b => if decLtB a b then -1 else if decLtB b a then 1 else 0
  | .fin _, .inf p => if p then -1 else 1
  | .inf p, .fin _ => if p then 1 else -1
  | .inf p, .inf q => if p = q then 0 else if p then 1 else -1

/-- Longest digit run at the head of the character list. -/
def takeDigits : List Char → List Char × List Char
  | [] => ([], [])
  | c :: cs =>
    if c.isDigit then
      let (ds, rest) := takeDigits cs
      (c :: ds, rest)
    else
      ([], c :: cs)

/-- Numeric value of a digit run. -/
def digitsVal (ds : List Char) : Nat :=
  ds.foldl (fun n c => 10 * n + (c.toNat - 48)) 0

/-- Optional exponent suffix `e`/`E` `[+|-]` digits of a decimal literal; an
exponent marker not followed by a digit is ignored (longest valid prefix
rule of `parseFloat`). -/
def parseExpSuffix (cs : List Char) : Int :=
  match cs with
  | 'e' :: rest => parseExpSuffixTail rest
  | 'E' :: rest => parseExpSuffixTail rest
  | _ => 0
where
  parseExpSuffixTail (rest : List Char) : Int :=
    let (neg, rest2) : Bool × List Char :=
      match rest with
      | '+' :: r => (false, r)
      | '-' :: r => (true, r)
      | r => (false, r)
    let (ds, _) := takeDigits rest2
    if ds.isEmpty then 0
    else if neg then -(digitsVal ds : Int) else (digitsVal ds : Int)

/-- Unsigned decimal literal at the head of the list: digits with an optional
fraction, then an optional exponent; `none` if no digit is present. -/
def parseUnsignedDecimal (cs : List Char) : Option DecNum :=
  let (ip, r1) := takeDigits cs
  let (fp, r2) : List Char × List Char :=
    match r1 with
    | '.' :: r => takeDigits r
    | _ => ([], r1)
  if ip.isEmpty && fp.isEmpty then none
  else
    let e := parseExpSuffix r2
    some ⟨(digitsVal (ip ++ fp) : Int), e - (fp.length : Int)⟩

/-- Model of JavaScript `parseFloat`: skip leading whitespace, read an
optional sign, then either an `Infinity` literal or a decimal literal;
`none` models `NaN`. -/
def parseFloat (s : String) : Option JsNum :=
  let r0 := s.data.dropWhile isStrWhiteSpace
  let (neg, r1) : Bool × List Char :=
    match r0 with
    | '+' :: r => (false, r)
    | '-' :: r => (true, r)
    | r => (false, r)
  if ("Infinity".data).isPrefixOf r1 then some (.inf (!neg))
  else
    (parseUnsignedDecimal r1).map fun d =>
      .fin (if neg then ⟨-d.mant, d.exp⟩ else d)

/-- The locale-aware string comparison `String.prototype.localeCompare`,
which is environment-provided, enters the embedding as a parameter. -/
abbrev LocaleCompare := String → String → Int

/-- Concrete instantiation of the environment's default-locale collation,
used only on concrete inputs on which every locale agrees (ASCII strings
differing in one letter or one digit): code-unit lexicographic comparison. -/
def codeUnitCmp : List Char → List Char → Int
  | [], [] => 0
  | [], _ :: _ => -1
  | _ :: _, [] => 1
  | a :: as, b :: bs =>
    if a.toNat < b.toNat then -1
    else if b.toNat < a.toNat then 1
    else codeUnitCmp as bs

/-- See `codeUnitCmp`. -/
def lcuDefault (a b : String) : Int :=
  codeUnitCmp a.data b.data

/-- The comparator body of `filteredAndSortedData`
(`DataTable.tsx`): numeric comparison when `parseFloat` yields non-`NaN` for
both stringified values, locale string comparison otherwise, with the
descending direction flipping the sign.  `asc = true` means
`direction === 'asc'`. -/
def compareCells (lc : LocaleCompare) (asc : Bool) (aValue bValue : String) : Int :=
  match parseFloat aValue, parseFloat bValue with
  | some aNum, some bNum => if asc then numCmp aNum bNum else numCmp bNum aNum
  | _, _ =>
    let comparison := lc aValue bValue
    if asc then comparison else -comparison

/-- Embedding of `SortConfig` of `types/csv`: `direction` is `true` for `'asc'`. -/
structure SortConfig where
  field : Option String
  direction : Bool
deriving DecidableEq, Repr

/-- The filter predicate of `filteredAndSortedData`:
`Object.values(row).some(value => String(value || '').toLowerCase()
.includes(searchTerm.toLowerCase()))` : the filter predicate of
`filteredAndSortedData`. -/
def rowMatches (searchTerm : String) (row : CsvRow) : Bool :=
  row.cells.any (fun p => strIncludes (jsToLower p.2) (jsToLower searchTerm))

/-- Insert a row into an already sorted list, after every element strictly
smaller than it (stable insertion). -/
def insertRow (lt : CsvRow → CsvRow → Bool) (r : CsvRow) : Table → Table
  | [] => [r]
  | x :: xs => if lt x r then x :: insertRow lt r xs else r :: x :: xs

/-- Stable sort by a strict comparison, modelling the (stable)
`Array.prototype.sort` applied to a copy of the filtered rows. -/
def sortRows (lt : CsvRow → CsvRow → Bool) : Table → Table
  | [] => []
  | x :: xs => insertRow lt x (sortRows lt xs)

/-- The transient view state of the `DataTable` component together with the
working table it renders. -/
structure AppState where
  data : Table
  searchTerm : String
  sortConfig : SortConfig
  currentPage : Nat
deriving Repr

/-- Embedding of `filteredAndSortedData` (`DataTable.tsx`): filter by the search term,
then, only if a sort field is set, sort a copy by the comparator on the
chosen column's stringified values. -/
def filteredAndSortedData (lc : LocaleCompare) (s : AppState) : Table :=
  let filtered := s.data.filter (rowMatches s.searchTerm)
  match s.sortConfig.field with
  | none => filtered
  | some f =>
    sortRows
      (fun a b =>
        compareCells lc s.sortConfig.direction (cellStr a.cells f) (cellStr b.cells f) < 0)
      filtered

/-- The page size `ITEMS_PER_PAGE` (`DataTable.tsx`). -/
def ITEMS_PER_PAGE : Nat := 50

/-- The derived `Math.ceil(filteredAndSortedData.length / ITEMS_PER_PAGE)`
(`DataTable.tsx`): for a natural `n`, the ceiling of `n / 50` is
`(n + 49) / 50` in natural division.  There is no clamping in the source. -/
def totalPages (n : Nat) : Nat :=
  (n + ITEMS_PER_PAGE - 1) / ITEMS_PER_PAGE

/-- Formalisation of the claim's words (not of the source): total pages
`= ceil(n / 50)` clamped to at least 1. -/
def totalPagesClampedSpec (n : Nat) : Nat :=
  max ((n + ITEMS_PER_PAGE - 1) / ITEMS_PER_PAGE) 1

/-- The page slice `filteredAndSortedData.slice((currentPage - 1) * 50, currentPage * 50)`
(`DataTable.tsx`). -/
def paginatedData (lc : LocaleCompare) (s : AppState) : Table :=
  ((filteredAndSortedData lc s).drop ((s.currentPage - 1) * ITEMS_PER_PAGE)).take ITEMS_PER_PAGE

/-- Embedding of `handleEdit` (`DataTable.tsx`): resolve the row to mutate by looking the
object `filteredAndSortedData[rowIndex]` up by identity in the working
table (`data.findIndex(d => d === ...)`); on failure return the table
unchanged, otherwise replace exactly that row by a record with the single
field overwritten.  The replacing object keeps the row's `id` because
identity is only ever consulted within one table state. -/
def handleEdit (lc : LocaleCompare) (s : AppState) (rowIndex : Nat) (field value : String) :
    Table :=
  match (filteredAndSortedData lc s)[rowIndex]? with
  | none => s.data
  | some target =>
    match s.data.findIdx? (fun d => d.id == target.id) with
    | none => s.data
    | some actualIndex =>
      match s.data[actualIndex]? with
      | none => s.data
      | some r => s.data.set actualIndex ⟨r.id, setField r.cells field value⟩

/-- Embedding of `EditedCell` (`types/csv`); the two value fields hold the raw (possibly
absent) property values the source stores in them. -/
structure EditedCell where
  rowIndex : Nat
  field : String
  originalValue : Option String
  newValue : Option String
deriving DecidableEq, Repr

/-- The cells one row contributes to `modifiedCells`: one entry per key of
the working row whose stringified value differs from the stringified
original value. -/
def modifiedCellsRow (index : Nat) (row originalRow : CsvRow) : List EditedCell :=
  row.cells.filterMap fun p =>
    if cellStr row.cells p.1 ≠ cellStr originalRow.cells p.1 then
      some ⟨index, p.1, getField originalRow.cells p.1, getField row.cells p.1⟩
    else
      none

/-- The traversal `data.forEach((row, index) => ...)` of `modifiedCells`: rows without a
counterpart at the same index in the original table (`if (originalRow)`)
contribute nothing. -/
def modifiedCellsAux (index : Nat) : Table → Table → List EditedCell
  | [], _ => []
  | _ :: _, [] => []
  | row :: ds, originalRow :: os =>
    modifiedCellsRow index row originalRow ++ modifiedCellsAux (index + 1) ds os

/-- Embedding of `modifiedCells` (`DataTable.tsx`). -/
def modifiedCells (data originalData : Table) : List EditedCell :=
  modifiedCellsAux 0 data originalData

/-- Embedding of `CsvData` (`types/csv`): headers, working rows, original snapshot. -/
structure CsvState where
  headers : List String
  rows : Table
  originalRows : Table
deriving DecidableEq, Repr

/-- A structural deep copy (`JSON.parse(JSON.stringify(t))`): same cell
contents, fresh object identities, numbered from `base`. -/
def relabelFrom (base : Nat) : Table → Table
  | [] => []
  | r :: rs => ⟨base, r.cells⟩ :: relabelFrom (base + 1) rs

/-- Embedding of `handleReset` (CSV manager): deep-copy the original snapshot into the
working table, leaving the snapshot itself (and the headers) unchanged. -/
def handleReset (s : CsvState) : CsvState :=
  { s with rows := relabelFrom 0 s.originalRows }

/-- The manager state visible to `handleDownload`: the CSV data plus the
transient view state of the table component (which `handleDownload` does not
read). -/
structure ManagerView where
  csv : CsvState
  searchTerm : String
  sortConfig : SortConfig
  currentPage : Nat

/-- Model of the external CSV serializer (`Papa.unparse`) as used by
`handleDownload`: the output is a list of lines, each a list of field
strings; the field list is taken from the first record's keys, followed by
one line per record in order with values looked up by field (absent
rendered empty).  Text-level quoting and escaping, the serializer's
responsibility, is abstracted away. -/
def unparse (rows : Table) : List (List String) :=
  match rows with
  | [] => []
  | r0 :: _ =>
    let fields := r0.cells.map Prod.fst
    fields :: rows.map (fun r => fields.map (cellStr r.cells))

/-- Embedding of `handleDownload` (CSV manager): `Papa.unparse(csvData.rows)` — the full
working table, not the filtered/sorted view. -/
def handleDownload (s : ManagerView) : List (List String) :=
  unparse s.csv.rows

/-- The row-validity predicate
`Object.values(row).some(value => value && String(value).trim())`, the
row-validity predicate used both by the per-chunk filter of the parse stage
and by `processData`. -/
def rowHasContent (row : CsvRow) : Bool :=
  row.cells.any (fun p => !(p.2 == "") && !(trimChars p.2.data).isEmpty)

/-- Outcome of the load-validation stage.  `reported` is an error raised
inside the `try` block of `processData` and shown to the user; `uncaught`
models the `'No valid data rows found.'` throw, which happens in a nested
timer callback after the `try`/`catch` has already exited and therefore
escapes uncaught, reporting nothing. -/
inductive LoadOutcome where
  | loaded (d : CsvState)
  | reported (msg : String)
  | uncaught (msg : String)
deriving DecidableEq, Repr

/-- Embedding of `processData` (`CsvUpload.tsx`): validate headers and rows, filter the
valid rows, and build the `CsvData` with a deep-copied original snapshot. -/
def processData (rows : Table) (headers : List String) : LoadOutcome :=
  if headers.length = 0 then .reported "No column headers found."
  else if rows.length = 0 then .reported "CSV has no data rows."
  else
    let validRows := rows.filter rowHasContent
    if validRows.length = 0 then .uncaught "No valid data rows found."
    else .loaded ⟨headers, validRows, relabelFrom 0 validRows⟩

/-- The parse stage followed by `processData`: each chunk's rows are
filtered with the same validity predicate before being accumulated
(`validChunkRows` in the `chunk` callback), so `processData` receives the
filtered concatenation of all parsed rows. -/
def parseAndProcess (rawRows : Table) (headers : List String) : LoadOutcome :=
  processData (rawRows.filter rowHasContent) headers

/-- Formalisation of the claim's words (not of the source): the string
parses *fully* as a *finite* decimal number — the entire string is an
optionally signed decimal literal with optional fraction and exponent
(`Infinity` and strings with trailing junk are rejected). -/
def parsesFullyAsFiniteDecimal (s : String) : Option DecNum :=
  let (neg, r1) : Bool × List Char :=
    match s.data with
    | '+' :: r => (false, r)
    | '-' :: r => (true, r)
    | r => (false, r)
  let (ip, r2) := takeDigits r1
  let (fp, r3) : List Char × List Char :=
    match r2 with
    | '.' :: r => takeDigits r
    | _ => ([], r2)
  if ip.isEmpty && fp.isEmpty then none
  else
    let eOpt : Option Int :=
      match r3 with
      | [] => some 0
      | 'e' :: rest => fullExpTail rest
      | 'E' :: rest => fullExpTail rest
      | _ => none
    match eOpt with
    | none => none
    | some e =>
      let m : Int := digitsVal (ip ++ fp)
      some ⟨if neg then -m else m, e - (fp.length : Int)⟩
where
  fullExpTail (rest : List Char) : Option Int :=
    let (eneg, rest2) : Bool × List Char :=
      match rest with
      | '+' :: r => (false, r)
      | '-' :: r => (true, r)
      | r => (false, r)
    let (ds, rest3) := takeDigits rest2
    if ds.isEmpty || !rest3.isEmpty then none
    else if eneg then some (-(digitsVal ds : Int)) else some (digitsVal ds : Int)

/-- Formalisation of the claim's comparator (not of the source): numeric
comparison exactly when both values parse fully as finite decimal numbers,
locale string comparison otherwise, descending direction flipping the
sign. -/
def compareCellsSpec (lc : LocaleCompare) (asc : Bool) (aValue bValue : String) : Int :=
  match parsesFullyAsFiniteDecimal aValue, parsesFullyAsFiniteDecimal bValue with
  | some x, some y => if asc then numCmp (.fin x) (.fin y) else numCmp (.fin y) (.fin x)
  | _, _ =>
    let comparison := lc aValue bValue
    if asc then comparison else -comparison

/-- A table of 51 pairwise distinct rows with a single column `"c"` holding the row
number; with an empty search term and no sort field the filtered/sorted
projection is the table itself, so page 2 displays exactly row 50. -/
def pageTwoRows : Table :=
  (List.range 51).map fun i => ⟨i, [("c", Nat.repr i)]⟩

/-- The `DataTable` state sitting on page 2 of `pageTwoRows` with no filter
and no sort. -/
def pageTwoState : AppState :=
  ⟨pageTwoRows, "", ⟨none, true⟩, 2⟩

/-! ### Supporting lemmas -/

theorem relabelFrom_length (base : Nat) (t : Table) :
    (relabelFrom base t).length = t.length := by
  induction t generalizing base with
  | nil => rfl
  | cons r rs ih => simp [relabelFrom, ih]

theorem relabelFrom_cells (base : Nat) (t : Table) :
    (relabelFrom base t).map CsvRow.cells = t.map CsvRow.cells := by
  induction t generalizing base with
  | nil => rfl
  | cons r rs ih => simp [relabelFrom, ih]

theorem decLtB_iff (a b : DecNum) : decLtB a b = true ↔ a.toRat < b.toRat := by
  have h1 : min a.exp b.exp ≤ a.exp := min_le_left _ _
  have h2 : min a.exp b.exp ≤ b.exp := min_le_right _ _
  have h10 : (0 : ℚ) < (10 : ℚ) ^ (min a.exp b.exp) := zpow_pos (by norm_num) _
  have key : ∀ e : Int, min a.exp b.exp ≤ e →
      ((10 : ℚ) ^ ((e - min a.exp b.exp).toNat)) * (10 : ℚ) ^ (min a.exp b.exp) =
        (10 : ℚ) ^ e := by
    intro e he
    rw [← zpow_natCast (10 : ℚ) ((e - min a.exp b.exp).toNat),
      ← zpow_add₀ (by norm_num : (10 : ℚ) ≠ 0)]
    congr 1
    omega
  have ea : ((a.mant : ℚ) * (10 : ℚ) ^ ((a.exp - min a.exp b.exp).toNat)) *
      (10 : ℚ) ^ (min a.exp b.exp) = a.toRat := by
    simp only [DecNum.toRat]
    rw [mul_assoc, key _ h1]
  have eb : ((b.mant : ℚ) * (10 : ℚ) ^ ((b.exp - min a.exp b.exp).toNat)) *
      (10 : ℚ) ^ (min a.exp b.exp) = b.toRat := by
    simp only [DecNum.toRat]
    rw [mul_assoc, key _ h2]
  simp only [decLtB, decide_eq_true_eq]
  rw [← ea, ← eb, mul_lt_mul_right h10]
  norm_cast

theorem numCmp_fin_neg (x y : DecNum) :
    numCmp (.fin x) (.fin y) = -1 ↔ x.toRat < y.toRat := by
  rcases lt_trichotomy x.toRat y.toRat with h | h | h
  · simp [numCmp, (decLtB_iff x y).2 h, h]
  · have t1 : decLtB x y = false := by
      rw [Bool.eq_false_iff]
      simp [decLtB_iff, h]
    have t2 : decLtB y x = false := by
      rw [Bool.eq_false_iff]
      simp [decLtB_iff, h]
    simp [numCmp, t1, t2, h]
  · have t1 : decLtB x y = false := by
      rw [Bool.eq_false_iff]
      simp [decLtB_iff, asymm h]
    simp [numCmp, t1, (decLtB_iff y x).2 h, asymm h]

theorem numCmp_fin_pos (x y : DecNum) :
    numCmp (.fin x) (.fin y) = 1 ↔ y.toRat < x.toRat := by
  rcases lt_trichotomy x.toRat y.toRat with h | h | h
  · simp [numCmp, (decLtB_iff x y).2 h, asymm h]
  · have t1 : decLtB x y = false := by
      rw [Bool.eq_false_iff]
      simp [decLtB_iff, h]
    have t2 : decLtB y x = false := by
      rw [Bool.eq_false_iff]
      simp [decLtB_iff, h]
    simp [numCmp, t1, t2, h]
  · have t1 : decLtB x y = false := by
      rw [Bool.eq_false_iff]
      simp [decLtB_iff, asymm h]
    simp [numCmp, t1, (decLtB_iff y x).2 h, h]

theorem numCmp_fin_zero (x y : DecNum) :
    numCmp (.fin x) (.fin y) = 0 ↔ x.toRat = y.toRat := by
  rcases lt_trichotomy x.toRat y.toRat with h | h | h
  · simp [numCmp, (decLtB_iff x y).2 h, ne_of_lt h]
  · have t1 : decLtB x y = false := by
      rw [Bool.eq_false_iff]
      simp [decLtB_iff, h]
    have t2 : decLtB y x = false := by
      rw [Bool.eq_false_iff]
      simp [decLtB_iff, h]
    simp [numCmp, t1, t2, h]
  · have t1 : decLtB x y = false := by
      rw [Bool.eq_false_iff]
      simp [decLtB_iff, asymm h]
    simp [numCmp, t1, (decLtB_iff y x).2 h, ne_of_gt h]

theorem numCmp_swap (x y : JsNum) : numCmp y x = -numCmp x y := by
  cases x with
  | fin a =>
    cases y with
    | fin b =>
      rcases lt_trichotomy a.toRat b.toRat with h | h | h
      · rw [(numCmp_fin_pos b a).2 h, (numCmp_fin_neg a b).2 h]
        norm_num
      · rw [(numCmp_fin_zero b a).2 h.symm, (numCmp_fin_zero a b).2 h]
        norm_num
      · rw [(numCmp_fin_neg b a).2 h, (numCmp_fin_pos a b).2 h]
    | inf p => cases p <;> rfl
  | inf p =>
    cases y with
    | fin b => cases p <;> rfl
    | inf q => cases p <;> cases q <;> rfl

/-! ### C2: the sort comparator -/

/-- C2, counterexample: the claim says the values `"1a"` and `"1b"` — which
do not parse fully as finite decimal numbers — are compared as strings with
locale-aware ordering, which puts `"1a"` strictly first; the code's
comparator instead applies `parseFloat` to both, obtains `1` for each
(prefix parse), and reports them equal (`0`), so an ascending sort does not
order them by locale order. -/
theorem compareCells_fullParse_counterexample :
    compareCells lcuDefault true "1a" "1b" = 0 ∧
    compareCellsSpec lcuDefault true "1a" "1b" = -1 ∧
    parsesFullyAsFiniteDecimal "1a" = none ∧
    parseFloat "1a" = some (.fin ⟨1, 0⟩) ∧
    parseFloat "1b" = some (.fin ⟨1, 0⟩) ∧
    lcuDefault "1a" "1b" = -1 := by
  decide

/-- C2, amended: every pairwise comparison of two stringified cell values is
numeric if and only if `parseFloat` returns non-`NaN` on *both* values —
a prefix parse that accepts leading whitespace, a sign, a decimal literal
prefix (also `Infinity`) followed by arbitrary junk — and otherwise is the
locale comparison of the two strings; numeric comparison of finite values
orders them by their exact decimal value, and the descending direction
flips the sign of the comparison. -/
theorem compareCells_amended (lc : LocaleCompare) (a b : String) :
    (compareCells lc false a b = -(compareCells lc true a b)) ∧
    (∀ x y, parseFloat a = some x → parseFloat b = some y →
      compareCells lc true a b = numCmp x y) ∧
    (∀ dx dy, parseFloat a = some (.fin dx) → parseFloat b = some (.fin dy) →
      ((compareCells lc true a b = -1 ↔ dx.toRat < dy.toRat) ∧
        (compareCells lc true a b = 0 ↔ dx.toRat = dy.toRat) ∧
        (compareCells lc true a b = 1 ↔ dy.toRat < dx.toRat))) ∧
    ((parseFloat a = none ∨ parseFloat b = none) → compareCells lc true a b = lc a b) := by
  refine ⟨?_, ?_, ?_, ?_⟩
  · unfold compareCells
    cases ha : parseFloat a <;> cases hb : parseFloat b
    · rfl
    · rfl
    · rfl
    · exact numCmp_swap _ _
  · intro x y hx hy
    unfold compareCells
    rw [hx, hy]
    simp
  · intro dx dy hx hy
    unfold compareCells
    rw [hx, hy]
    simpa using ⟨numCmp_fin_neg dx dy, numCmp_fin_zero dx dy, numCmp_fin_pos dx dy⟩
  · intro h
    unfold compareCells
    rcases h with h | h
    · rw [h]
      cases parseFloat b <;> simp
    · rw [h]
      cases parseFloat a <;> simp

/-- C2 witness: concrete instances discharging the hypotheses of
`compareCells_amended`: `"2"` and `"10"` both prefix-parse, give a numeric
ascending comparison of `-1` (2 < 10), and the non-numeric pair
`"x"`/`"y"` falls back to the locale comparison. -/
theorem compareCells_amended_witness :
    compareCells lcuDefault true "2" "10" = numCmp (.fin ⟨2, 0⟩) (.fin ⟨10, 0⟩) ∧
    (compareCells lcuDefault true "2" "10" = -1 ↔
      DecNum.toRat ⟨2, 0⟩ < DecNum.toRat ⟨10, 0⟩) ∧
    compareCells lcuDefault true "x" "y" = lcuDefault "x" "y" :=
  ⟨(compareCells_amended lcuDefault "2" "10").2.1 _ _ (by decide) (by decide),
    ((compareCells_amended lcuDefault "2" "10").2.2.1 ⟨2, 0⟩ ⟨10, 0⟩
      (by decide) (by decide)).1,
    (compareCells_amended lcuDefault "x" "y").2.2.2 (Or.inl (by decide))⟩

/-! ### C3: total page count -/

/-- C3, counterexample: with zero filtered rows the code's
`Math.ceil(0 / 50)` is `0`, not the claimed value clamped to at least 1. -/
theorem totalPages_zero_counterexample :
    totalPages 0 = 0 ∧ totalPagesClampedSpec 0 = 1 ∧
    totalPages 0 ≠ totalPagesClampedSpec 0 := by
  decide

/-- C3, amended: for every filtered row count `n` the derived total page
count is exactly `ceil(n / 50)` with no clamping — characterised as the
least number of 50-row pages covering `n` rows — and it agrees with the
claimed clamped value whenever `n ≥ 1` (the clamp only matters at
`n = 0`, where the code yields `0`). -/
theorem totalPages_ceil_noClamp (n : Nat) :
    (n ≤ ITEMS_PER_PAGE * totalPages n ∧
      ITEMS_PER_PAGE * totalPages n < n + ITEMS_PER_PAGE) ∧
    (1 ≤ n → totalPages n = totalPagesClampedSpec n) := by
  unfold totalPages totalPagesClampedSpec ITEMS_PER_PAGE
  omega

/-- C3 witness: `totalPages` evaluated at the spec's own example
(120 filtered rows give 3 pages), discharging the `1 ≤ n` hypothesis of
`totalPages_ceil_noClamp`. -/
theorem totalPages_ceil_noClamp_witness :
    1 ≤ 120 ∧ totalPages 120 = totalPagesClampedSpec 120 ∧ totalPages 120 = 3 :=
  ⟨by decide, (totalPages_ceil_noClamp 120).2 (by decide), by decide⟩

/-! ### C1: mapping a displayed row back to the store -/

/-- C1, code bug: on page 2 the first displayed row is working-table row 50,
but committing an edit on it (`handleEdit(0, "c", "X")`, the `0` being the
row's index within the rendered page) looks up
`filteredAndSortedData[0]` — the first row of page 1 — and therefore
mutates working-table row 0, leaving the row the user actually saw
unchanged: the displayed-row-to-store mapping is wrong on every page after
the first because the page-local row index is used without the
`(currentPage - 1) * ITEMS_PER_PAGE` offset. -/
theorem handleEdit_pageTwo_editsWrongRow :
    (paginatedData lcuDefault pageTwoState)[0]? = some ⟨50, [("c", "50")]⟩ ∧
    (handleEdit lcuDefault pageTwoState 0 "c" "X")[50]? = some ⟨50, [("c", "50")]⟩ ∧
    (handleEdit lcuDefault pageTwoState 0 "c" "X")[0]? = some ⟨0, [("c", "X")]⟩ ∧
    pageTwoState.data[0]? = some ⟨0, [("c", "0")]⟩ ∧
    pageTwoState.data[50]? = some ⟨50, [("c", "50")]⟩ := by
  decide

/-! ### C5: the filter -/

theorem substrAux_nil (hay : List Char) : substrAux [] hay = true := by
  cases hay <;> simp [substrAux, List.isPrefixOf]

theorem substrAux_iff (needle hay : List Char) :
    substrAux needle hay = true ↔ needle <:+: hay := by
  induction hay with
  | nil => simp [substrAux, List.infix_nil, List.isEmpty_iff]
  | cons c rest ih =>
    simp [substrAux, List.isPrefixOf_iff_prefix, ih, List.infix_cons_iff]

/-- C5: a row is kept by the filter of `filteredAndSortedData` iff at least
one of its cell values, lower-cased, contains the lower-cased search term
as a contiguous substring; and the empty search term keeps every row of a
working table (whose rows, sharing the non-empty header key set, each have
at least one cell). -/
theorem filter_keepsRow_iff (term : String) (data : Table) :
    (∀ r : CsvRow, r ∈ data.filter (rowMatches term) ↔
      (r ∈ data ∧ ∃ p ∈ r.cells, (jsToLower term).data <:+: (jsToLower p.2).data)) ∧
    ((∀ r ∈ data, r.cells ≠ []) → data.filter (rowMatches "") = data) := by
  constructor
  · intro r
    rw [List.mem_filter]
    simp [rowMatches, strIncludes, List.any_eq_true, substrAux_iff]
  · intro h
    rw [List.filter_eq_self]
    intro r hr
    obtain ⟨p, hp⟩ := List.exists_mem_of_ne_nil _ (h r hr)
    refine List.any_eq_true.2 ⟨p, hp, ?_⟩
    show substrAux (jsToLower "").data (jsToLower p.2).data = true
    exact substrAux_nil _

/-- C5 witness: the empty search term keeps the one-row table whose single
row has one cell, by `filter_keepsRow_iff` with its hypothesis discharged
on this concrete table. -/
theorem filter_keepsRow_iff_witness :
    (List.filter (rowMatches "") [(⟨0, [("a", "x")]⟩ : CsvRow)]) =
      [(⟨0, [("a", "x")]⟩ : CsvRow)] :=
  (filter_keepsRow_iff "" [⟨0, [("a", "x")]⟩]).2 (by decide)

/-! ### C4: the diff -/

theorem mem_modifiedCellsRow_rowIndex {i : Nat} {row orow : CsvRow} {c : EditedCell}
    (h : c ∈ modifiedCellsRow i row orow) : c.rowIndex = i := by
  simp only [modifiedCellsRow, List.mem_filterMap] at h
  obtain ⟨p, _, hp⟩ := h
  by_cases hd : cellStr row.cells p.1 ≠ cellStr orow.cells p.1
  · rw [if_pos hd] at hp
    cases hp
    rfl
  · rw [if_neg hd] at hp
    cases hp

theorem modifiedCellsAux_rowIndex_ge :
    ∀ (data orig : Table) (n : Nat) (c : EditedCell),
      c ∈ modifiedCellsAux n data orig → n ≤ c.rowIndex := by
  intro data
  induction data with
  | nil =>
    intro orig n c h
    simp [modifiedCellsAux] at h
  | cons row ds ih =>
    intro orig n c h
    cases orig with
    | nil => simp [modifiedCellsAux] at h
    | cons orow os =>
      rcases List.mem_append.1 h with h' | h'
      · exact le_of_eq (mem_modifiedCellsRow_rowIndex h').symm
      · exact Nat.le_of_succ_le (ih os (n + 1) c h')

theorem mem_modifiedCellsRow_iff (i : Nat) (row orow : CsvRow) (f : String) :
    (∃ c ∈ modifiedCellsRow i row orow, c.field = f) ↔
    (f ∈ row.cells.map Prod.fst ∧ cellStr row.cells f ≠ cellStr orow.cells f) := by
  constructor
  · rintro ⟨c, hc, hf⟩
    simp only [modifiedCellsRow, List.mem_filterMap] at hc
    obtain ⟨p, hp, he⟩ := hc
    by_cases hd : cellStr row.cells p.1 ≠ cellStr orow.cells p.1
    · rw [if_pos hd] at he
      cases he
      have hpf : p.1 = f := hf
      subst hpf
      exact ⟨List.mem_map.2 ⟨p, hp, rfl⟩, hd⟩
    · rw [if_neg hd] at he
      cases he
  · rintro ⟨hmem, hdiff⟩
    obtain ⟨p, hp, hpf⟩ := List.mem_map.1 hmem
    refine ⟨⟨i, f, getField orow.cells f, getField row.cells f⟩, ?_, rfl⟩
    simp only [modifiedCellsRow, List.mem_filterMap]
    refine ⟨p, hp, ?_⟩
    rw [hpf, if_pos hdiff]

theorem modifiedCellsAux_mem_iff :
    ∀ (data orig : Table) (n r : Nat) (f : String),
      (∃ c ∈ modifiedCellsAux n data orig, c.rowIndex = n + r ∧ c.field = f) ↔
      (∃ row orow, data[r]? = some row ∧ orig[r]? = some orow ∧
        f ∈ row.cells.map Prod.fst ∧ cellStr row.cells f ≠ cellStr orow.cells f) := by
  intro data
  induction data with
  | nil =>
    intro orig n r f
    simp [modifiedCellsAux]
  | cons row ds ih =>
    intro orig n r f
    cases orig with
    | nil => simp [modifiedCellsAux]
    | cons orow os =>
      cases r with
      | zero =>
        simp only [List.getElem?_cons_zero, Nat.add_zero]
        constructor
        · rintro ⟨c, hc, hidx, hf⟩
          rcases List.mem_append.1 hc with h' | h'
          · obtain ⟨hmem, hdiff⟩ := (mem_modifiedCellsRow_iff n row orow f).1 ⟨c, h', hf⟩
            exact ⟨row, orow, rfl, rfl, hmem, hdiff⟩
          · have := modifiedCellsAux_rowIndex_ge ds os (n + 1) c h'
            omega
        · rintro ⟨row', orow', hrow, horow, hmem, hdiff⟩
          cases hrow
          cases horow
          obtain ⟨c, hc, hf⟩ := (mem_modifiedCellsRow_iff n row orow f).2 ⟨hmem, hdiff⟩
          exact ⟨c, List.mem_append.2 (Or.inl hc), mem_modifiedCellsRow_rowIndex hc, hf⟩
      | succ r =>
        simp only [List.getElem?_cons_succ]
        constructor
        · rintro ⟨c, hc, hidx, hf⟩
          rcases List.mem_append.1 hc with h' | h'
          · have h0 := mem_modifiedCellsRow_rowIndex h'
            omega
          · exact (ih os (n + 1) r f).1 ⟨c, h', by omega, hf⟩
        · rintro h
          obtain ⟨c, hc, hidx, hf⟩ := (ih os (n + 1) r f).2 h
          exact ⟨c, List.mem_append.2 (Or.inr hc), by omega, hf⟩

/-- C4: the diff of the working table against the original snapshot
contains an `EditedCell` at `(r, f)` iff `r` is an index present in both
tables, `f` is a key of working row `r`, and the stringified working value
differs from the stringified original value (absent values coerced to the
empty string); the diff is a pure function of the two tables. -/
theorem modifiedCells_spec (data orig : Table) (r : Nat) (f : String) :
    (∃ c ∈ modifiedCells data orig, c.rowIndex = r ∧ c.field = f) ↔
    (∃ row orow, data[r]? = some row ∧ orig[r]? = some orow ∧
      f ∈ row.cells.map Prod.fst ∧ cellStr row.cells f ≠ cellStr orow.cells f) := by
  have h := modifiedCellsAux_mem_iff data orig 0 r f
  simpa using h

/-! ### C6: reset -/

theorem modifiedCellsAux_eq_nil_of_cells_eq :
    ∀ (data orig : Table) (n : Nat),
      data.map CsvRow.cells = orig.map CsvRow.cells →
      modifiedCellsAux n data orig = [] := by
  intro data
  induction data with
  | nil =>
    intro orig n _
    rfl
  | cons row ds ih =>
    intro orig n h
    cases orig with
    | nil => simp at h
    | cons orow os =>
      simp only [List.map_cons, List.cons.injEq] at h
      obtain ⟨hc, ht⟩ := h
      have hrow : modifiedCellsRow n row orow = [] := by
        refine List.filterMap_eq_nil_iff.2 ?_
        intro p _
        rw [if_neg]
        simp [hc]
      simp [modifiedCellsAux, hrow, ih os (n + 1) ht]

/-- C6: `handleReset` is idempotent, leaves the original snapshot (and the
headers) unchanged, makes every working cell equal its original-snapshot
cell, and therefore makes the diff of working table against original
snapshot empty. -/
theorem handleReset_spec (s : CsvState) :
    handleReset (handleReset s) = handleReset s ∧
    (handleReset s).originalRows = s.originalRows ∧
    (handleReset s).headers = s.headers ∧
    (handleReset s).rows.map CsvRow.cells = s.originalRows.map CsvRow.cells ∧
    modifiedCells (handleReset s).rows s.originalRows = [] := by
  refine ⟨rfl, rfl, rfl, relabelFrom_cells 0 s.originalRows, ?_⟩
  exact modifiedCellsAux_eq_nil_of_cells_eq _ _ 0 (relabelFrom_cells 0 s.originalRows)

/-! ### C7: the edit frame -/

theorem getField_replace_ne (f v g : String) (h : g ≠ f) :
    ∀ cells : List (String × String),
      getField (cells.map fun p => if p.1 == f then (p.1, v) else p) g = getField cells g := by
  intro cells
  induction cells with
  | nil => rfl
  | cons p cs ih =>
    rw [List.map_cons]
    by_cases hpg : (p.1 == g) = true
    · have hp1f : p.1 ≠ f := by
        have hp1g : p.1 = g := by simpa using hpg
        rw [hp1g]
        exact h
      have hpf : (p.1 == f) = false := by simpa using hp1f
      have hq : (if (p.1 == f) = true then (p.1, v) else p) = p := by
        rw [hpf]
        simp
      rw [hq]
      unfold getField
      rw [List.find?_cons, List.find?_cons, hpg]
    · have hpg' : (p.1 == g) = false := by simpa using hpg
      have hqg : ((if (p.1 == f) = true then (p.1, v) else p).1 == g) = false := by
        split <;> exact hpg'
      unfold getField
      rw [List.find?_cons, List.find?_cons, hqg, hpg']
      exact ih

theorem getField_append_single_ne (f v g : String) (h : g ≠ f) :
    ∀ cells : List (String × String),
      getField (cells ++ [(f, v)]) g = getField cells g := by
  intro cells
  have hfg : (f == g) = false := by
    have : f ≠ g := fun hh => h hh.symm
    simpa using this
  have hsingle : List.find? (fun p => p.1 == g) [(f, v)] = none :=
    List.find?_cons_of_neg _ (by simpa using hfg)
  unfold getField
  rw [List.find?_append, hsingle, Option.or_none]

theorem getField_setField_ne (cells : List (String × String)) (f v g : String) (h : g ≠ f) :
    getField (setField cells f v) g = getField cells g := by
  unfold setField
  by_cases hany : cells.any (fun p => p.1 == f)
  · rw [if_pos hany]
    exact getField_replace_ne f v g h cells
  · rw [if_neg hany]
    exact getField_append_single_ne f v g h cells

theorem handleEdit_cases (lc : LocaleCompare) (s : AppState) (i : Nat) (f v : String) :
    handleEdit lc s i f v = s.data ∨
    ∃ j r, s.data[j]? = some r ∧
      handleEdit lc s i f v = s.data.set j ⟨r.id, setField r.cells f v⟩ := by
  unfold handleEdit
  split
  · exact Or.inl rfl
  · split
    · exact Or.inl rfl
    · split
      · exact Or.inl rfl
      · exact Or.inr ⟨_, _, by assumption, rfl⟩

/-- C7: an edit changes at most the single targeted field of the single
resolved row — there is an index `j` such that the new table is the old one
with row `j` replaced by a record agreeing with the old row `j` on every
field other than the targeted one, every other row being the same record —
and when the displayed row cannot be resolved
(`filteredAndSortedData[rowIndex]` is absent) the edit is a no-op returning
the table unchanged (the embedding is a total function, so no exception and
no partial state change are possible). -/
theorem handleEdit_frame (lc : LocaleCompare) (s : AppState) (i : Nat) (f v : String) :
    ((filteredAndSortedData lc s)[i]? = none → handleEdit lc s i f v = s.data) ∧
    (handleEdit lc s i f v = s.data ∨
      ∃ j r, s.data[j]? = some r ∧
        handleEdit lc s i f v = s.data.set j ⟨r.id, setField r.cells f v⟩ ∧
        (∀ k, k ≠ j → (handleEdit lc s i f v)[k]? = s.data[k]?) ∧
        (∀ g, g ≠ f → cellStr (setField r.cells f v) g = cellStr r.cells g)) := by
  constructor
  · intro hnone
    unfold handleEdit
    rw [hnone]
  · rcases handleEdit_cases lc s i f v with h | ⟨j, r, hj, hE⟩
    · exact Or.inl h
    · refine Or.inr ⟨j, r, hj, hE, ?_, ?_⟩
      · intro k hk
        rw [hE]
        exact List.getElem?_set_ne (Ne.symm hk)
      · intro g hg
        unfold cellStr
        rw [getField_setField_ne _ f v g hg]

/-- C7 witness: on the empty table the displayed row 0 does not exist, and
`handleEdit_frame` yields the no-op with its hypothesis discharged. -/
theorem handleEdit_frame_witness :
    handleEdit lcuDefault ⟨[], "", ⟨none, true⟩, 1⟩ 0 "a" "b" = [] :=
  (handleEdit_frame lcuDefault ⟨[], "", ⟨none, true⟩, 1⟩ 0 "a" "b").1 rfl

/-! ### C8: the length invariant -/

/-- C8: the working table and the original snapshot always have the same
length — a completed load produces two tables of equal length, every edit
preserves the working table's length (no row is inserted or deleted), and
every reset rebuilds the working table at exactly the snapshot's length
while leaving the snapshot unchanged. -/
theorem length_invariant :
    (∀ (rawRows : Table) (headers : List String) (d : CsvState),
      parseAndProcess rawRows headers = .loaded d → d.rows.length = d.originalRows.length) ∧
    (∀ (lc : LocaleCompare) (s : AppState) (i : Nat) (f v : String),
      (handleEdit lc s i f v).length = s.data.length) ∧
    (∀ s : CsvState,
      (handleReset s).rows.length = (handleReset s).originalRows.length ∧
      (handleReset s).originalRows = s.originalRows) := by
  refine ⟨?_, ?_, ?_⟩
  · intro raw headers d h
    simp only [parseAndProcess, processData] at h
    split at h
    · cases h
    · split at h
      · cases h
      · split at h
        · cases h
        · cases h
          simp [relabelFrom_length]
  · intro lc s i f v
    rcases handleEdit_cases lc s i f v with h | ⟨j, r, _, hE⟩
    · rw [h]
    · rw [hE, List.length_set]
  · intro s
    exact ⟨by simp [handleReset, relabelFrom_length], rfl⟩

/-- C8 witness: `length_invariant` applied to a concrete completed load,
its hypothesis discharged by evaluating the load pipeline. -/
theorem length_invariant_witness :
    (CsvState.mk ["a"] [⟨0, [("a", "x")]⟩] [⟨0, [("a", "x")]⟩]).rows.length =
      (CsvState.mk ["a"] [⟨0, [("a", "x")]⟩] [⟨0, [("a", "x")]⟩]).originalRows.length :=
  length_invariant.1 [⟨0, [("a", "x")]⟩] ["a"] _ (by decide)

/-! ### C9: the download -/

/-- C9: `handleDownload` ignores the view state entirely — any two states
with the same CSV data download identically — and on a table whose first
row carries the header key set in header order (the data-model invariant
for loaded tables) it emits the original header list followed by exactly
one line per working-table row, in stored order, each line listing the
row's stringified values under the headers. -/
theorem handleDownload_spec (csv : CsvState) (t1 t2 : String) (sc1 sc2 : SortConfig)
    (p1 p2 : Nat) :
    (handleDownload ⟨csv, t1, sc1, p1⟩ = handleDownload ⟨csv, t2, sc2, p2⟩) ∧
    (∀ r0 rest, csv.rows = r0 :: rest → r0.cells.map Prod.fst = csv.headers →
      handleDownload ⟨csv, t1, sc1, p1⟩ =
        csv.headers :: csv.rows.map (fun r => csv.headers.map (cellStr r.cells))) := by
  constructor
  · rfl
  · intro r0 rest hrows hkeys
    unfold handleDownload unparse
    rw [hrows]
    show (r0.cells.map Prod.fst) ::
        (r0 :: rest).map (fun r => (r0.cells.map Prod.fst).map (cellStr r.cells)) =
      csv.headers :: (r0 :: rest).map (fun r => csv.headers.map (cellStr r.cells))
    rw [hkeys]

/-- C9 witness: a concrete one-row download via `handleDownload_spec`, its
hypotheses discharged on that table. -/
theorem handleDownload_spec_witness :
    handleDownload ⟨⟨["a"], [⟨0, [("a", "x")]⟩], [⟨0, [("a", "x")]⟩]⟩, "zz",
        ⟨some "a", false⟩, 7⟩ =
      ["a"] :: ([⟨0, [("a", "x")]⟩] : Table).map
        (fun r => (["a"] : List String).map (cellStr r.cells)) :=
  (handleDownload_spec ⟨["a"], [⟨0, [("a", "x")]⟩], [⟨0, [("a", "x")]⟩]⟩ "zz" ""
    ⟨some "a", false⟩ ⟨none, true⟩ 7 1).2 ⟨0, [("a", "x")]⟩ [] rfl rfl

/-! ### C10: load errors -/

/-- C10: for every parsed input, the three load-error conditions surface as
a user-facing `reported` message with no table created: missing headers are
reported; an input with zero data rows and an input whose rows are all
empty after trimming are both reported (as `'CSV has no data rows.'`,
since the parse stage's per-chunk filter has already discarded empty rows);
the unreported `uncaught` path of the dead third check is unreachable; and
whenever an error is reported the outcome is not a loaded table. -/
theorem processData_loadErrors (rawRows : Table) (headers : List String) :
    (headers = [] → parseAndProcess rawRows headers = .reported "No column headers found.") ∧
    (rawRows = [] → headers ≠ [] →
      parseAndProcess rawRows headers = .reported "CSV has no data rows.") ∧
    ((∀ r ∈ rawRows, rowHasContent r = false) → headers ≠ [] →
      parseAndProcess rawRows headers = .reported "CSV has no data rows.") ∧
    (∀ msg, parseAndProcess rawRows headers ≠ .uncaught msg) ∧
    (∀ msg d, parseAndProcess rawRows headers = .reported msg →
      parseAndProcess rawRows headers ≠ .loaded d) := by
  have hfilter : (rawRows.filter rowHasContent).filter rowHasContent
      = rawRows.filter rowHasContent := by
    rw [List.filter_filter]
    simp
  refine ⟨?_, ?_, ?_, ?_, ?_⟩
  · intro h
    subst h
    rfl
  · intro hraw hh
    subst hraw
    have h1 : ¬ (headers.length = 0) := by simpa [List.length_eq_zero] using hh
    simp [parseAndProcess, processData, h1]
  · intro hall hh
    have h1 : ¬ (headers.length = 0) := by simpa [List.length_eq_zero] using hh
    have h2 : rawRows.filter rowHasContent = [] := List.filter_eq_nil_iff.2 (by simpa using hall)
    simp [parseAndProcess, processData, h1, h2]
  · intro msg
    by_cases c1 : headers.length = 0
    · simp [parseAndProcess, processData, c1]
    · by_cases c2 : (rawRows.filter rowHasContent).length = 0
      · simp [parseAndProcess, processData, c1, c2]
      · have c3 : ¬ (((rawRows.filter rowHasContent).filter rowHasContent).length = 0) := by
          rw [hfilter]
          exact c2
        simp [parseAndProcess, processData, c1, c2, c3]
  · intro msg d hrep
    rw [hrep]
    simp

/-- C10 witness: the missing-headers condition reported on the empty input,
discharging the hypotheses of `processData_loadErrors`. -/
theorem processData_loadErrors_witness :
    parseAndProcess [] [] = .reported "No column headers found." :=
  (processData_loadErrors [] []).1 rfl
